import Mathlib

/-
Shallow embedding of `src/plumber/_plumber.py`: the declaration markers
(`default`, `extend`, `plumb`), the pipeline collector and endpoint
resolution of `Plumber.__init__`, and the chain compiler `entrance`,
together with theorems checking the repository's specification.
-/

namespace Plumber

/-- Errors surfacing from composition.  `plumbingCollision` models the
`PlumbingCollision` exception; `typeConstraint` models the `TypeError`
raised by `plumb` (lines 57-63) and by `entrance` (lines 142-144), which
the specification names `TypeConstraintError`; `missingEndpoint` models
the `AttributeError` escaping from `getattr(cls, name)` during endpoint
resolution (line 238), which the specification names
`MissingEndpointError`. -/
inductive PlumbErr : Type where
  | plumbingCollision (nm : String)
  | typeConstraint
  | missingEndpoint (nm : String)
  deriving DecidableEq, Repr

/-- Values found in class and plugin dictionaries.  Constructors mirror
the Python classes the collector dispatches on with `isinstance` and
`type`: plain objects, plain functions (`types.FunctionType`), plain
properties, `default` and `extend` marker instances (holding their
already-unwrapped `.attr`), `plumbmethod` and `plumbproperty` instances,
the bound classmethod produced by `getattr(plugin, name)` (line 212), the
`CLOSED` pipeline sentinel (lines 148-150), and the two closure shapes
built by `entrance` (lines 137 and 139-140).  Functions and accessors are
identified by numeric tags; invocation behaviour of method chains is
modelled separately by `compileM`. -/
inductive PyVal : Type where
  | obj (tag : Nat)
  | func (tag : Nat)
  | prop (fget fset fdel : Option Nat)
  | deflt (stored : PyVal)
  | extnd (stored : PyVal)
  | plumbM (fn : Nat)
  | plumbP (fget fset fdel : Option Nat)
  | boundMeth (plugin fn : Nat)
  | closedS
  | chainM (plugin fn : Nat) (nxt : PyVal)
  | chainP (fget fset fdel : Option Nat) (nxt : PyVal)
  deriving DecidableEq, Repr

/-- Marker stripping, `extensiondecor.unwrap` (lines 32-35): recurse while
the value is an `extensiondecor` instance. -/
def unwrap : PyVal → PyVal
  | .deflt a => unwrap a
  | .extnd a => unwrap a
  | v => v

/-- Constructor of `default` (lines 29-30 and 38-46): the marker stores
`unwrap(attr)`. -/
def mkDefault (attr : PyVal) : PyVal := .deflt (unwrap attr)

/-- Constructor of `extend` (lines 29-30 and 49-54). -/
def mkExtend (attr : PyVal) : PyVal := .extnd (unwrap attr)

/-- Exact-type test `type(attr) is property` (line 58); subclasses such as
`plumbproperty` do not pass it. -/
def isPropertyType : PyVal → Bool
  | .prop _ _ _ => true
  | _ => false

/-- Exact-type test `type(attr) is types.FunctionType` (line 60). -/
def isFunctionType : PyVal → Bool
  | .func _ => true
  | _ => false

/-- Function `plumb` (lines 57-63): a plain property becomes a
`plumbproperty` marker over its accessor triple, a plain function becomes
a `plumbmethod` marker, anything else raises the type error. -/
def plumb : PyVal → Except PlumbErr PyVal
  | .prop g s d => .ok (.plumbP g s d)
  | .func f => .ok (.plumbM f)
  | _ => .error .typeConstraint

/-- Value of `os.linesep` on the POSIX target. -/
def lineSep : String := "\n"

/-- Function `merge_doc(first, *args)` (lines 96-107), expressed on the
list of `__doc__` values of its arguments: with no further arguments the
first doc is returned; otherwise the rest is merged, an absent side is
replaced by the other, and two present docs are joined with the line
separator (first one in front). -/
def merge_doc : List (Option String) → Option String
  | [] => none
  | [d] => d
  | d :: rest =>
      match merge_doc rest with
      | none => d
      | some r =>
          match d with
          | none => some r
          | some f => some (f ++ lineSep ++ r)

/-- A plumbing plugin class: an identifying tag, its `__doc__`, and its
`__dict__.items()` in iteration order. -/
structure Plugin : Type where
  tag : Nat
  doc : Option String
  decls : List (String × PyVal)
  deriving DecidableEq, Repr

/-- Ordered association-list lookup, modelling dictionary lookup. -/
def lookupA {α : Type} : List (String × α) → String → Option α
  | [], _ => none
  | (k, v) :: rest, nm => if k = nm then some v else lookupA rest nm

/-- Dictionary update: replace the entry for the key or append a new one. -/
def updateA {α : Type} : List (String × α) → String → α → List (String × α)
  | [], k, v => [(k, v)]
  | (k', v') :: rest, k, v =>
      if k' = k then (k, v) :: rest else (k', v') :: updateA rest k v

/-- The class under construction: the plumbing-relevant part of its own
`__dict__`, the attributes reachable through its bases, the
`__pipeline__` entry of its own dict (`none` when absent or `None`,
line 168), and its `__doc__`. -/
structure Cls : Type where
  own : List (String × PyVal)
  inherited : List (String × PyVal)
  ownPipeline : Option (List Plugin)
  doc : Option String
  deriving DecidableEq, Repr

/-- Attribute lookup `getattr(cls, name)`: own dict first, then bases. -/
def getattrC (cls : Cls) (nm : String) : Option PyVal :=
  match lookupA cls.own nm with
  | some v => some v
  | none => lookupA cls.inherited nm

/-- Attribute write `setattr(cls, name, v)`. -/
def setattrC (cls : Cls) (nm : String) (v : PyVal) : Cls :=
  { cls with own := updateA cls.own nm v }

/-- Collector state of `Plumber.__init__`: the class being mutated, the
`defaulted` name set (line 178) and the `pipelines` dict (line 177) in
insertion order. -/
structure St : Type where
  cls : Cls
  defaulted : List String
  pipelines : List (String × List PyVal)
  deriving DecidableEq, Repr

/-- Pipeline entry classifier: a classmethod bound to its plugin. -/
def isMethodEntry : PyVal → Bool
  | .boundMeth _ _ => true
  | _ => false

/-- Pipeline entry classifier: a `plumbproperty` instance, the class the
collector and `entrance` test with `isinstance(·, plumbproperty)`. -/
def isPropEntry : PyVal → Bool
  | .plumbP _ _ _ => true
  | _ => false

/-- Entries a pipeline can receive from plumbing declarations. -/
def isPlumbEntry (v : PyVal) : Bool := isMethodEntry v || isPropEntry v

/-- Plain (untagged) plugin attributes: whatever the collector's
`isinstance` chain recognises as none of the four marker kinds. -/
def isPlainAttr : PyVal → Bool
  | .deflt _ => false
  | .extnd _ => false
  | .plumbM _ => false
  | .plumbP _ _ _ => false
  | _ => true

/-- Test `name in pipelines and pipelines[name][-1] is CLOSED`
(line 203). -/
def closedAt (st : St) (nm : String) : Bool :=
  match lookupA st.pipelines nm with
  | some pipe => decide (pipe.getLast? = some PyVal.closedS)
  | none => false

/-- Test `pipe and isinstance(pipe[-1], plumbproperty)` (line 207). -/
def lastIsProp (pipe : List PyVal) : Bool :=
  match pipe.getLast? with
  | some e => isPropEntry e
  | none => false

/-- Test `pipe and not isinstance(pipe[-1], plumbproperty)` (line 215). -/
def lastNonProp (pipe : List PyVal) : Bool :=
  match pipe.getLast? with
  | some e => !isPropEntry e
  | none => false

/-- Lines 182-184: `pipelines.setdefault(name, [])`, then append `CLOSED`
unless the pipe already ends with it. -/
def closePipe (pipes : List (String × List PyVal)) (nm : String) :
    List (String × List PyVal) :=
  let pipe0 := (lookupA pipes nm).getD []
  let pipe1 :=
    if pipe0.getLast? = some PyVal.closedS then pipe0
    else pipe0 ++ [PyVal.closedS]
  updateA pipes nm pipe1

/-- One step of the collector loop body (lines 180-217), dispatching on
the kind of the declared attribute exactly as the `isinstance` chain
does: `default`/`extend` close the pipeline and install their stored
value on the class subject to the collision and defaulted-flag rules; any
other attribute first collides when the name's pipeline is closed; then
`plumbmethod` and `plumbproperty` append to the pipeline subject to the
kind-mismatch collision checks; everything else is ignored. -/
def processDecl (plugin : Plugin) (st : St) (nm : String) (decor : PyVal) :
    Except PlumbErr St :=
  match decor with
  | .deflt a =>
      let ps := closePipe st.pipelines nm
      -- lines 198-202: install only if the class does not have the
      -- attribute in its own dict yet, and record the defaulted flag
      if (lookupA st.cls.own nm).isSome then
        .ok { st with pipelines := ps }
      else
        .ok { st with
                pipelines := ps,
                cls := setattrC st.cls nm a,
                defaulted :=
                  if nm ∈ st.defaulted then st.defaulted
                  else nm :: st.defaulted }
  | .extnd a =>
      let ps := closePipe st.pipelines nm
      -- lines 187-197: collide with an attribute already in the class's
      -- own dict, except one merely installed by an earlier default;
      -- otherwise install the stored value and drop the defaulted flag
      if (lookupA st.cls.own nm).isSome ∧ nm ∉ st.defaulted then
        .error (.plumbingCollision nm)
      else
        .ok { st with
                pipelines := ps,
                cls := setattrC st.cls nm a,
                defaulted := st.defaulted.erase nm }
  | d =>
      if closedAt st nm then
        -- lines 203-204: any non-extension attribute behind a closed
        -- pipeline collides
        .error (.plumbingCollision nm)
      else
        match d with
        | .plumbM f =>
            -- lines 205-212: the appended entry is the classmethod bound
            -- to the declaring plugin class
            let pipe0 := (lookupA st.pipelines nm).getD []
            if lastIsProp pipe0 then .error (.plumbingCollision nm)
            else
              .ok { st with
                      pipelines :=
                        updateA st.pipelines nm
                          (pipe0 ++ [PyVal.boundMeth plugin.tag f]) }
        | .plumbP g s dl =>
            -- lines 213-217
            let pipe0 := (lookupA st.pipelines nm).getD []
            if lastNonProp pipe0 then .error (.plumbingCollision nm)
            else
              .ok { st with
                      pipelines :=
                        updateA st.pipelines nm
                          (pipe0 ++ [PyVal.plumbP g s dl]) }
        | _ => .ok st

/-- Process one plugin's declarations in order (lines 179-217).  The
`zope.interface` propagation (lines 219-225) is skipped: no interface
registry is present, which the specification treats as a no-op. -/
def processPlugin (st : St) (plugin : Plugin) : Except PlumbErr St :=
  plugin.decls.foldlM (fun st nd => processDecl plugin st nd.1 nd.2) st

/-- The collector: fold `processPlugin` over the declared plugin order. -/
def collectPlugins (plugins : List Plugin) (st : St) : Except PlumbErr St :=
  plugins.foldlM processPlugin st

/-- Function `entrance(name, pipe)` (lines 110-145) on the structural part
of the pipeline (documentation threading is modelled separately by
`compileM`).  A single remaining element is returned as-is (lines
119-122); otherwise the head is popped, the entrance of the rest becomes
`_next`, and a `plumbproperty` head yields the
`property(get_entrance, set_entrance, del_entrance)` closure triple while
a bound method head yields the `_entrance` method closure; any other head
raises the type error of lines 142-144.  The empty pipe cannot occur
(every compiled pipe ends in its endpoint) and is mapped to the same
error for totality. -/
def entrance : List PyVal → Except PlumbErr PyVal
  | [] => .error .typeConstraint
  | [x] => .ok x
  | x :: y :: rest =>
      match entrance (y :: rest) with
      | .error e => .error e
      | .ok nxt =>
          match x with
          | .plumbP g s d => .ok (.chainP g s d nxt)
          | .boundMeth p f => .ok (.chainM p f nxt)
          | _ => .error .typeConstraint

/-- Lines 228-230: drop a trailing `CLOSED` marker from a pipeline. -/
def stripClosed (pipe : List PyVal) : List PyVal :=
  if pipe.getLast? = some PyVal.closedS then pipe.dropLast else pipe

/-- Lines 227-245: for every collected name in insertion order, drop the
`CLOSED` marker, resolve the endpoint with `getattr(cls, name)` (whose
failure is the build-time missing-endpoint error), append it to the pipe,
and install the compiled entrance on the class with `setattr`. -/
def installPipelines : List (String × List PyVal) → Cls → Except PlumbErr Cls
  | [], cls => .ok cls
  | (nm, pipe) :: rest, cls =>
      match getattrC cls nm with
      | none => .error (.missingEndpoint nm)
      | some ep =>
          match entrance (stripClosed pipe ++ [ep]) with
          | .error e => .error e
          | .ok compiled => installPipelines rest (setattrC cls nm compiled)

/-- Line 174, `cls.__doc__ = merge_doc(cls, *reversed(cls.__pipeline__))`,
followed by the initial collector state (lines 177-178). -/
def initSt (cls : Cls) (plugins : List Plugin) : St :=
  { cls :=
      { cls with
          doc := merge_doc (cls.doc :: (plugins.reverse.map Plugin.doc)) },
    defaulted := [],
    pipelines := [] }

/-- The composition body of `Plumber.__init__` for a class whose own dict
carries a pipeline (lines 170-245): merge the docs, run the collector
over all plugins, then resolve endpoints and install compiled chains. -/
def compose (cls : Cls) (plugins : List Plugin) : Except PlumbErr Cls :=
  match collectPlugins plugins (initSt cls plugins) with
  | .error e => .error e
  | .ok st => installPipelines st.pipelines st.cls

/-- Method `Plumber.__init__` (lines 163-245): after ordinary type
construction, return the class unchanged unless its own dict defines a
`__pipeline__` (lines 168-169); the tuple normalization of lines 170-171
is reflected in `ownPipeline` already being a list. -/
def plumberInit (cls : Cls) : Except PlumbErr Cls :=
  match cls.ownPipeline with
  | none => .ok cls
  | some plugins => compose cls plugins

/-- A plumbing-method layer for the behavioural model of `entrance`: the
callable the wrapped `_entrance` closure invokes (already bound to its
declaring plugin class, so it receives `_next` and then the instance with
its arguments), paired with its `__doc__`. -/
abbrev MLayer (I O : Type) : Type := ((I → O) → I → O) × Option String

/-- An endpoint for the behavioural model: a plain callable with doc. -/
abbrev MEnd (I O : Type) : Type := (I → O) × Option String

/-- The method branch of `entrance` (lines 119-122 and 138-141) as a
behaviour-plus-documentation compiler: the empty layer list is the
`len(pipe) == 1` base case returning the endpoint unwrapped, and
otherwise the head layer is wrapped around the compiled rest, its call
receiving `_next` first, with the closure's `__doc__` set by
`merge_doc(_next, plumbattr)`. -/
def compileM {I O : Type} : List (MLayer I O) → MEnd I O → MEnd I O
  | [], ep => ep
  | (f, d) :: rest, ep =>
      let nxt := compileM rest ep
      (fun x => f nxt.1 x, merge_doc [nxt.2, d])

/-- The pure dispatch structure of a compiled method chain, free of any
documentation data. -/
def methodChain {I O : Type} : List ((I → O) → I → O) → (I → O) → I → O
  | [], ep => ep
  | f :: rest, ep => fun x => f (methodChain rest ep) x

/-- Joining a list of present documentation strings with the line
separator. -/
def joinSep : List String → String
  | [] => ""
  | [x] => x
  | x :: rest => x ++ lineSep ++ joinSep rest

/-- The merged documentation of a list of present docs: absent for the
empty list, otherwise the separator-join. -/
def joinDocs : List String → Option String
  | [] => none
  | x :: rest => some (joinSep (x :: rest))

/-- Argument roles in a call made by a compiled layer. -/
inductive CallArg : Type where
  | ownerPlugin
  | nextHandler
  | instSelf
  | newValue
  deriving DecidableEq, Repr

/-- Line 132, `plumbattr.fget(_next.fget, self)`: the argument list the
compiled getter passes to the layer's raw getter function. -/
def get_entrance_args : List CallArg := [.nextHandler, .instSelf]

/-- Line 134, `plumbattr.fset(_next.fset, self, val)`. -/
def set_entrance_args : List CallArg := [.nextHandler, .instSelf, .newValue]

/-- Line 136, `plumbattr.fdel(_next.fdel, self)`. -/
def del_entrance_args : List CallArg := [.nextHandler, .instSelf]

/-- Lines 139-140 together with lines 209-212: a pipeline method entry is
the classmethod bound to its declaring plugin class, so the call
`plumbattr(_next, self, ...)` delivers the plugin as leading argument of
the underlying function. -/
def method_entrance_args : List CallArg := [.ownerPlugin, .nextHandler, .instSelf]

/-- Parameter count of a plumbing getter as documented by the
`plumbproperty` docstring (lines 85-88): `def getter(plb, _next, self)`. -/
def documented_getter_params : Nat := 3

/-- Parameter count of `def setter(plb, _next, self, val)` (line 87). -/
def documented_setter_params : Nat := 4

/-- Parameter count of `def deleter(plb, _next, self)` (line 88). -/
def documented_deleter_params : Nat := 3

/-- A plain Python function call binds exactly when the positional
argument count matches the parameter count. -/
def pyCallBindsOk (params args : Nat) : Bool := params == args

/-- Structural invariant of a collected pipeline: a homogeneous run of
bound-method entries or of property entries, optionally followed by the
`CLOSED` sentinel. -/
def ValidPipe (pipe : List PyVal) : Prop :=
  ∃ core, (pipe = core ∨ pipe = core ++ [PyVal.closedS]) ∧
    (core.all isMethodEntry = true ∨ core.all isPropEntry = true)

/-- Collector-state invariant: pipeline keys are distinct and every
pipeline is well-formed. -/
def Inv (st : St) : Prop :=
  (st.pipelines.map Prod.fst).Nodup ∧ ∀ p ∈ st.pipelines, ValidPipe p.2

deriving instance DecidableEq for Except

/-- An empty class: nothing in the own dict, nothing inherited. -/
def clsEmpty : Cls := ⟨[], [], none, none⟩

/-- Concrete plugin declaring one plumbing method under the name `m`. -/
def pluginMethW : Plugin := ⟨1, none, [("m", .plumbM 0)]⟩

/-- Collector result for `pluginMethW` over the empty class. -/
def stMethW : St := ⟨clsEmpty, [], [("m", [.boundMeth 1 0])]⟩

/-- Concrete layers for evaluating compiled method chains on `Nat`. -/
def aLayer : MLayer Nat Nat := (fun _nxt x => x + 1, some "docA")

/-- Second concrete layer: doubles the result of its `_next`. -/
def bLayer : MLayer Nat Nat := (fun nxt x => nxt x * 2, some "docB")

/-- Concrete endpoint layer. -/
def epLayer : MEnd Nat Nat := (fun x => x, some "docE")

/-- The binary documentation merge used on each wrapping step. -/
def md2 (a b : Option String) : Option String :=
  match b with
  | none => a
  | some r =>
      match a with
      | none => some r
      | some f => some (f ++ lineSep ++ r)

theorem lookupA_mem {α : Type} {k : String} {v : α} :
    ∀ {l : List (String × α)}, lookupA l k = some v → (k, v) ∈ l
  | [], h => by simp [lookupA] at h
  | (k', v') :: rest, h => by
      by_cases hk : k' = k
      · subst hk
        simp [lookupA] at h
        subst h
        exact List.mem_cons_self _ _
      · simp only [lookupA, if_neg hk] at h
        exact List.mem_cons_of_mem _ (lookupA_mem h)

theorem lookupA_update_self {α : Type} (k : String) (v : α) :
    ∀ (l : List (String × α)), lookupA (updateA l k v) k = some v
  | [] => by simp [updateA, lookupA]
  | (k', v') :: rest => by
      by_cases hk : k' = k
      · simp [updateA, hk, lookupA]
      · simp only [updateA, if_neg hk, lookupA]
        exact lookupA_update_self k v rest

theorem lookupA_update_ne {α : Type} {k nm : String} (hk : k ≠ nm) (v : α) :
    ∀ (l : List (String × α)), lookupA (updateA l k v) nm = lookupA l nm
  | [] => by simp [updateA, lookupA, hk]
  | (k', v') :: rest => by
      by_cases hkk : k' = k
      · subst hkk
        simp [updateA, lookupA, hk]
      · simp only [updateA, if_neg hkk, lookupA]
        by_cases hnm : k' = nm
        · simp [hnm]
        · rw [if_neg hnm, if_neg hnm]
          exact lookupA_update_ne hk v rest

theorem mem_updateA {α : Type} {q : String × α} {k : String} {v : α} :
    ∀ {l : List (String × α)}, q ∈ updateA l k v → q = (k, v) ∨ q ∈ l
  | [], h => by
      simp [updateA] at h
      exact Or.inl h
  | (k', v') :: rest, h => by
      by_cases hk : k' = k
      · simp only [updateA, if_pos hk] at h
        rcases List.mem_cons.mp h with h | h
        · exact Or.inl h
        · exact Or.inr (List.mem_cons_of_mem _ h)
      · simp only [updateA, if_neg hk] at h
        rcases List.mem_cons.mp h with h | h
        · exact Or.inr (h ▸ List.mem_cons_self _ _)
        · rcases mem_updateA h with h | h
          · exact Or.inl h
          · exact Or.inr (List.mem_cons_of_mem _ h)

theorem keys_mem_updateA {α : Type} {m k : String} {v : α} :
    ∀ {l : List (String × α)},
      m ∈ (updateA l k v).map Prod.fst → m ∈ l.map Prod.fst ∨ m = k := by
  intro l h
  rcases List.mem_map.mp h with ⟨q, hq, hm⟩
  rcases mem_updateA hq with h1 | h1
  · right
    rw [← hm, h1]
  · exact Or.inl (List.mem_map.mpr ⟨q, h1, hm⟩)

theorem nodup_updateA {α : Type} {k : String} {v : α} :
    ∀ {l : List (String × α)}, (l.map Prod.fst).Nodup →
      ((updateA l k v).map Prod.fst).Nodup
  | [], _ => by simp [updateA]
  | (k', v') :: rest, h => by
      rw [List.map_cons, List.nodup_cons] at h
      by_cases hk : k' = k
      · simp only [updateA, if_pos hk, List.map_cons, List.nodup_cons]
        exact ⟨hk ▸ h.1, h.2⟩
      · simp only [updateA, if_neg hk, List.map_cons, List.nodup_cons]
        refine ⟨fun hc => ?_, nodup_updateA h.2⟩
        rcases keys_mem_updateA hc with hc | hc
        · exact h.1 hc
        · exact hk hc

theorem all_getLast {l : List PyVal} {P : PyVal → Bool} {a : PyVal}
    (hall : l.all P = true) (h : l.getLast? = some a) : P a = true := by
  have ha : a ∈ l := List.mem_of_mem_getLast? h
  exact List.all_eq_true.mp hall a ha

theorem getLast?_concat_pv (core : List PyVal) (a : PyVal) :
    (core ++ [a]).getLast? = some a := by
  simp [List.getLast?_concat]

theorem core_last_ne_closed {core : List PyVal}
    (h : core.all isMethodEntry = true ∨ core.all isPropEntry = true) :
    core.getLast? ≠ some PyVal.closedS := by
  intro hc
  rcases h with h | h
  · have := all_getLast h hc
    simp [isMethodEntry] at this
  · have := all_getLast h hc
    simp [isPropEntry] at this

theorem validPipe_nil : ValidPipe [] :=
  ⟨[], Or.inl rfl, Or.inl rfl⟩

theorem validPipe_close {pipe : List PyVal} (h : ValidPipe pipe) :
    ValidPipe (if pipe.getLast? = some PyVal.closedS then pipe
               else pipe ++ [PyVal.closedS]) := by
  obtain ⟨core, hp, hcore⟩ := h
  by_cases hc : pipe.getLast? = some PyVal.closedS
  · rw [if_pos hc]
    exact ⟨core, hp, hcore⟩
  · rw [if_neg hc]
    rcases hp with hp | hp
    · exact ⟨core, Or.inr (by rw [hp]), hcore⟩
    · exact absurd (hp ▸ getLast?_concat_pv core PyVal.closedS) hc

theorem validPipe_open {pipe : List PyVal} (h : ValidPipe pipe)
    (hc : pipe.getLast? ≠ some PyVal.closedS) :
    pipe.all isMethodEntry = true ∨ pipe.all isPropEntry = true := by
  obtain ⟨core, hp, hcore⟩ := h
  rcases hp with hp | hp
  · exact hp ▸ hcore
  · exact absurd (hp ▸ getLast?_concat_pv core PyVal.closedS) hc

theorem stripClosed_valid {pipe : List PyVal} (h : ValidPipe pipe) :
    (stripClosed pipe).all isMethodEntry = true ∨
      (stripClosed pipe).all isPropEntry = true := by
  obtain ⟨core, hp, hcore⟩ := h
  rcases hp with hp | hp
  · subst hp
    rw [stripClosed, if_neg (core_last_ne_closed hcore)]
    exact hcore
  · subst hp
    rw [stripClosed, if_pos (getLast?_concat_pv core PyVal.closedS),
      List.dropLast_concat]
    exact hcore

theorem inv_update {st : St} {nm : String} {pipe : List PyVal}
    (hInv : Inv st) (hv : ValidPipe pipe) :
    Inv { st with pipelines := updateA st.pipelines nm pipe } := by
  refine ⟨nodup_updateA hInv.1, fun p hp => ?_⟩
  rcases mem_updateA hp with h | h
  · rw [h]
    exact hv
  · exact hInv.2 p h

theorem lookup_validPipe {st : St} {nm : String} (hInv : Inv st) :
    ValidPipe ((lookupA st.pipelines nm).getD []) := by
  cases h : lookupA st.pipelines nm with
  | none => exact validPipe_nil
  | some pipe => exact hInv.2 (nm, pipe) (lookupA_mem h)

theorem inv_closePipe {st : St} (nm : String) (hInv : Inv st) :
    Inv { st with pipelines := closePipe st.pipelines nm } := by
  exact inv_update hInv (validPipe_close (lookup_validPipe hInv))

theorem processDecl_inv {plugin : Plugin} {st : St} {nm : String}
    {decor : PyVal} {st' : St} (hInv : Inv st)
    (h : processDecl plugin st nm decor = .ok st') : Inv st' := by
  have hcls : ∀ c d ps, Inv st → ValidPipe ps →
      Inv { cls := c, defaulted := d,
            pipelines := updateA st.pipelines nm ps } := by
    intro c d ps hI hv
    refine ⟨nodup_updateA hI.1, fun p hp => ?_⟩
    rcases mem_updateA hp with h1 | h1
    · rw [h1]; exact hv
    · exact hI.2 p h1
  cases decor with
  | deflt a =>
      simp only [processDecl, closePipe] at h
      split at h <;>
        · cases h
          exact hcls _ _ _ hInv (validPipe_close (lookup_validPipe hInv))
  | extnd a =>
      simp only [processDecl, closePipe] at h
      split at h
      · cases h
      · cases h
        exact hcls _ _ _ hInv (validPipe_close (lookup_validPipe hInv))
  | plumbM f =>
      simp only [processDecl] at h
      split at h
      · cases h
      · rename_i hclosed
        split at h
        · cases h
        · rename_i hlast
          cases h
          refine hcls _ _ _ hInv ?_
          have hv := @lookup_validPipe st nm hInv
          have hopen : ((lookupA st.pipelines nm).getD []).getLast? ≠
              some PyVal.closedS := by
            intro hc
            apply hclosed
            cases hl : lookupA st.pipelines nm with
            | none => rw [hl] at hc; simp at hc
            | some pipe =>
                rw [hl] at hc
                simp only [closedAt, hl]
                exact decide_eq_true hc
          have hcore := validPipe_open hv hopen
          refine ⟨(lookupA st.pipelines nm).getD [] ++ [.boundMeth plugin.tag f],
            Or.inl rfl, Or.inl ?_⟩
          rcases hcore with hcore | hcore
          · rw [List.all_append, hcore]
            simp [isMethodEntry]
          · cases he : ((lookupA st.pipelines nm).getD []) with
            | nil => simp [isMethodEntry]
            | cons q qs =>
                exfalso
                apply hlast
                have hne : (q :: qs).getLast? ≠ none := by simp
                cases hg : (q :: qs).getLast? with
                | none => exact absurd hg hne
                | some b =>
                    have hb : isPropEntry b = true := by
                      rw [he] at hcore
                      exact all_getLast hcore hg
                    rw [he]
                    simp [lastIsProp, hg, hb]
  | plumbP g s dl =>
      simp only [processDecl] at h
      split at h
      · cases h
      · rename_i hclosed
        split at h
        · cases h
        · rename_i hlast
          cases h
          refine hcls _ _ _ hInv ?_
          have hv := @lookup_validPipe st nm hInv
          have hopen : ((lookupA st.pipelines nm).getD []).getLast? ≠
              some PyVal.closedS := by
            intro hc
            apply hclosed
            cases hl : lookupA st.pipelines nm with
            | none => rw [hl] at hc; simp at hc
            | some pipe =>
                rw [hl] at hc
                simp only [closedAt, hl]
                exact decide_eq_true hc
          have hcore := validPipe_open hv hopen
          refine ⟨(lookupA st.pipelines nm).getD [] ++ [.plumbP g s dl],
            Or.inl rfl, Or.inr ?_⟩
          rcases hcore with hcore | hcore
          · cases he : ((lookupA st.pipelines nm).getD []) with
            | nil => simp [isPropEntry]
            | cons q qs =>
                exfalso
                apply hlast
                have hne : (q :: qs).getLast? ≠ none := by simp
                cases hg : (q :: qs).getLast? with
                | none => exact absurd hg hne
                | some b =>
                    have hb : isMethodEntry b = true := by
                      rw [he] at hcore
                      exact all_getLast hcore hg
                    have hbp : isPropEntry b = false := by
                      cases b <;> simp_all [isMethodEntry, isPropEntry]
                    rw [he]
                    simp [lastNonProp, hg, hbp]
          · rw [List.all_append, hcore]
            simp [isPropEntry]
  | obj t =>
      simp only [processDecl] at h
      split at h
      · cases h
      · cases h; exact hInv
  | func t =>
      simp only [processDecl] at h
      split at h
      · cases h
      · cases h; exact hInv
  | prop g s dl =>
      simp only [processDecl] at h
      split at h
      · cases h
      · cases h; exact hInv
  | boundMeth p f =>
      simp only [processDecl] at h
      split at h
      · cases h
      · cases h; exact hInv
  | closedS =>
      simp only [processDecl] at h
      split at h
      · cases h
      · cases h; exact hInv
  | chainM p f nx =>
      simp only [processDecl] at h
      split at h
      · cases h
      · cases h; exact hInv
  | chainP g s dl nx =>
      simp only [processDecl] at h
      split at h
      · cases h
      · cases h; exact hInv

theorem foldlM_inv {α : Type} (P : St → Prop)
    (f : St → α → Except PlumbErr St)
    (hf : ∀ s a s', P s → f s a = .ok s' → P s') :
    ∀ (l : List α) (s s' : St), P s → l.foldlM f s = .ok s' → P s'
  | [], s, s', hs, h => by
      have h' : Except.ok s = Except.ok s' := h
      cases h'
      exact hs
  | a :: l, s, s', hs, h => by
      have h' : (f s a >>= fun t => List.foldlM f t l) = Except.ok s' := h
      cases hfa : f s a with
      | error e =>
          rw [hfa] at h'
          have hcontra : (Except.error e : Except PlumbErr St) =
              Except.ok s' := h'
          cases hcontra
      | ok t =>
          rw [hfa] at h'
          have h'' : List.foldlM f t l = Except.ok s' := h'
          exact foldlM_inv P f hf l t s' (hf s a t hs hfa) h''

theorem processPlugin_inv {st st' : St} {plugin : Plugin} (hInv : Inv st)
    (h : processPlugin st plugin = .ok st') : Inv st' := by
  exact foldlM_inv Inv _
    (fun s nd s' hs hh => processDecl_inv hs hh) plugin.decls st st' hInv h

theorem collectPlugins_inv {plugins : List Plugin} {st st' : St}
    (hInv : Inv st) (h : collectPlugins plugins st = .ok st') : Inv st' := by
  refine foldlM_inv Inv processPlugin ?_ plugins st st' hInv h
  intro s a s' hs hh
  exact processPlugin_inv hs hh

theorem initSt_inv (cls : Cls) (plugins : List Plugin) :
    Inv (initSt cls plugins) := by
  constructor
  · simp [initSt]
  · intro p hp
    simp [initSt] at hp

theorem isPlumb_of_entry {v : PyVal}
    (h : isMethodEntry v = true ∨ isPropEntry v = true) :
    (∃ p f, v = .boundMeth p f) ∨ (∃ g s d, v = .plumbP g s d) := by
  rcases h with h | h
  · cases v <;> simp [isMethodEntry] at h
    exact Or.inl ⟨_, _, rfl⟩
  · cases v <;> simp [isPropEntry] at h
    exact Or.inr ⟨_, _, _, rfl⟩

theorem entrance_cons_cons (x y : PyVal) (rest : List PyVal) :
    entrance (x :: y :: rest) =
      match entrance (y :: rest) with
      | .error e => .error e
      | .ok nxt =>
          match x with
          | .plumbP g s d => .ok (.chainP g s d nxt)
          | .boundMeth p f => .ok (.chainM p f nxt)
          | _ => .error .typeConstraint := rfl

theorem entrance_cons_of_ok {x : PyVal} {l : List PyVal} {w : PyVal}
    (hl : l ≠ []) (hw : entrance l = .ok w) :
    entrance (x :: l) =
      (match x with
       | .plumbP g s d => .ok (.chainP g s d w)
       | .boundMeth p f => .ok (.chainM p f w)
       | _ => .error .typeConstraint) := by
  cases l with
  | nil => exact absurd rfl hl
  | cons y rest =>
      rw [entrance_cons_cons, hw]

theorem entrance_append_ok {core : List PyVal} (ep : PyVal)
    (h : ∀ v ∈ core, isMethodEntry v = true ∨ isPropEntry v = true) :
    ∃ w, entrance (core ++ [ep]) = .ok w := by
  induction core with
  | nil => exact ⟨ep, rfl⟩
  | cons c cs ih =>
      obtain ⟨w, hw⟩ := ih (fun v hv => h v (List.mem_cons_of_mem _ hv))
      have hc := h c (List.mem_cons_self _ _)
      have hne : cs ++ [ep] ≠ [] := by simp
      rcases isPlumb_of_entry hc with ⟨p, f, rfl⟩ | ⟨g, s, d, rfl⟩
      · exact ⟨.chainM p f w,
          by rw [List.cons_append, entrance_cons_of_ok hne hw]⟩
      · exact ⟨.chainP g s d w,
          by rw [List.cons_append, entrance_cons_of_ok hne hw]⟩

theorem getattr_setattr_ne {cls : Cls} {k nm : String} (hk : k ≠ nm)
    (v : PyVal) : getattrC (setattrC cls k v) nm = getattrC cls nm := by
  simp only [getattrC, setattrC, lookupA_update_ne hk]

theorem installPipelines_missing :
    ∀ (l : List (String × List PyVal)) (cls : Cls) (nm : String)
      (pipe : List PyVal),
      (l.map Prod.fst).Nodup → (∀ p ∈ l, ValidPipe p.2) →
      (nm, pipe) ∈ l → getattrC cls nm = none →
      ∃ m, installPipelines l cls = .error (.missingEndpoint m)
  | [], cls, nm, pipe, _, _, hmem, _ => by simp at hmem
  | (k, p) :: rest, cls, nm, pipe, hnd, hv, hmem, hget => by
      cases hg : getattrC cls k with
      | none => exact ⟨k, by rw [installPipelines, hg]⟩
      | some ep =>
          have hknm : k ≠ nm := by
            intro hk
            rw [hk, hget] at hg
            cases hg
          have hmem' : (nm, pipe) ∈ rest := by
            rcases List.mem_cons.mp hmem with h | h
            · cases h
              exact absurd rfl hknm
            · exact h
          have hvp := hv (k, p) (List.mem_cons_self _ _)
          obtain ⟨w, hw⟩ := @entrance_append_ok (stripClosed p) ep
            (fun v hvm => by
              rcases stripClosed_valid hvp with hall | hall
              · exact Or.inl (List.all_eq_true.mp hall v hvm)
              · exact Or.inr (List.all_eq_true.mp hall v hvm))
          rw [List.map_cons, List.nodup_cons] at hnd
          obtain ⟨m, hm⟩ := installPipelines_missing rest
            (setattrC cls k w) nm pipe hnd.2
            (fun q hq => hv q (List.mem_cons_of_mem _ hq)) hmem'
            (by rw [getattr_setattr_ne hknm, hget])
          exact ⟨m, by simp only [installPipelines, hg, hw]; exact hm⟩

theorem okBind {α β : Type} (a : α) (f : α → Except PlumbErr β) :
    (Except.ok a >>= f) = f a := rfl

theorem errBind {α β : Type} (e : PlumbErr) (f : α → Except PlumbErr β) :
    ((Except.error e : Except PlumbErr α) >>= f) = Except.error e := rfl

theorem md2_none_left (b : Option String) : md2 none b = b := by
  cases b <;> rfl

theorem merge_doc_cons (d y : Option String) (rest : List (Option String)) :
    merge_doc (d :: y :: rest) = md2 d (merge_doc (y :: rest)) := rfl

theorem md2_assoc (a b c : Option String) :
    md2 a (md2 b c) = md2 (md2 a b) c := by
  cases a <;> cases b <;> cases c <;>
    simp [md2, String.append_assoc]

theorem merge_doc_append_last :
    ∀ (L : List (Option String)), L ≠ [] → ∀ (d : Option String),
      merge_doc (L ++ [d]) = md2 (merge_doc L) d
  | [], h, _ => absurd rfl h
  | [x], _, d => rfl
  | x :: y :: L'', _, d => by
      have h1 : (x :: y :: L'') ++ [d] = x :: ((y :: L'') ++ [d]) := rfl
      rw [h1]
      have h2 : (y :: L'') ++ [d] = y :: (L'' ++ [d]) := rfl
      calc merge_doc (x :: ((y :: L'') ++ [d]))
          = md2 x (merge_doc ((y :: L'') ++ [d])) := by
            rw [h2]
            exact merge_doc_cons x y (L'' ++ [d])
        _ = md2 x (md2 (merge_doc (y :: L'')) d) := by
            rw [merge_doc_append_last (y :: L'') (by simp) d]
        _ = md2 (md2 x (merge_doc (y :: L''))) d := md2_assoc _ _ _
        _ = md2 (merge_doc (x :: y :: L'')) d := by rw [← merge_doc_cons]

theorem md2_joinDocs (d : Option String) (L : List String) :
    md2 d (joinDocs L) = joinDocs (d.toList ++ L) := by
  cases d <;> cases L <;> rfl

theorem merge_doc_eq_joinDocs :
    ∀ (l : List (Option String)), merge_doc l = joinDocs (l.filterMap id)
  | [] => rfl
  | [d] => by cases d <;> rfl
  | d :: y :: rest => by
      rw [merge_doc_cons, merge_doc_eq_joinDocs (y :: rest), md2_joinDocs]
      cases d <;> simp [List.filterMap_cons, Option.toList]

theorem compileM_doc {I O : Type} :
    ∀ (pipe : List (MLayer I O)) (ep : MEnd I O),
      (compileM pipe ep).2 = merge_doc ((pipe.map Prod.snd ++ [ep.2]).reverse)
  | [], ep => rfl
  | (f, d) :: rest, ep => by
      have h1 : (compileM ((f, d) :: rest) ep).2
          = md2 (compileM rest ep).2 d := rfl
      rw [h1, compileM_doc rest ep]
      have h2 : (((f, d) :: rest).map Prod.snd ++ [ep.2]).reverse
          = ((rest.map Prod.snd ++ [ep.2]).reverse) ++ [d] := by
        simp
      rw [h2, merge_doc_append_last _ (by simp) d]

theorem compileM_fst {I O : Type} :
    ∀ (pipe : List (MLayer I O)) (ep : MEnd I O),
      (compileM pipe ep).1 = methodChain (pipe.map Prod.fst) ep.1
  | [], ep => rfl
  | (f, d) :: rest, ep => by
      show (fun x => f (compileM rest ep).1 x)
          = fun x => f (methodChain (rest.map Prod.fst) ep.1) x
      rw [compileM_fst rest ep]

theorem unwrap_unwrap : ∀ v : PyVal, unwrap (unwrap v) = unwrap v
  | .deflt a => unwrap_unwrap a
  | .extnd a => unwrap_unwrap a
  | .obj _ => rfl
  | .func _ => rfl
  | .prop _ _ _ => rfl
  | .plumbM _ => rfl
  | .plumbP _ _ _ => rfl
  | .boundMeth _ _ => rfl
  | .closedS => rfl
  | .chainM _ _ _ => rfl
  | .chainP _ _ _ _ => rfl

theorem mkDefault_mkDefault (x : PyVal) :
    mkDefault (mkDefault x) = mkDefault x := by
  show PyVal.deflt (unwrap (PyVal.deflt (unwrap x))) = PyVal.deflt (unwrap x)
  have h : unwrap (PyVal.deflt (unwrap x)) = unwrap (unwrap x) := rfl
  rw [h, unwrap_unwrap]

theorem mkDefault_iterate :
    ∀ (n : Nat) (x : PyVal), mkDefault^[n + 1] x = mkDefault x
  | 0, _ => rfl
  | n + 1, x => by
      rw [Function.iterate_succ_apply, mkDefault_iterate n (mkDefault x),
        mkDefault_mkDefault]

/-- C1: for plugin order `[A, B]` both declaring a plumbing method under
one name, the collector builds the pipeline `[A's bound method, B's bound
method]` and composition installs `A`'s layer outermost with its `_next`
bound to the compiled chain of `[B's layer, endpoint]` (first conjunct, on
the structural model; second conjunct, on the behavioural model); a layer
that never invokes its `_next` alone determines the chain's behaviour, so
the outermost plugin decides whether the remainder runs (third
conjunct). -/
theorem c1 {I O : Type} (nm : String) (tA fa tB fb e : Nat)
    (A B : MLayer I O) (ep : MEnd I O) :
    (∃ cls', compose ⟨[], [(nm, .obj e)], none, none⟩
        [⟨tA, none, [(nm, .plumbM fa)]⟩, ⟨tB, none, [(nm, .plumbM fb)]⟩]
        = .ok cls' ∧
      lookupA cls'.own nm
        = some (.chainM tA fa (.chainM tB fb (.obj e)))) ∧
    ((compileM [A, B] ep).1 = fun x => A.1 ((compileM [B] ep).1) x) ∧
    (∀ (f : I → O) (dA : Option String) (rest : List (MLayer I O))
        (ep' : MEnd I O),
      (compileM ((fun _nxt x => f x, dA) :: rest) ep').1 = fun x => f x) := by
  refine ⟨?_, rfl, fun f dA rest ep' => rfl⟩
  refine ⟨⟨[(nm, .chainM tA fa (.chainM tB fb (.obj e)))],
    [(nm, .obj e)], none, none⟩, ?_, ?_⟩
  · simp [compose, initSt, collectPlugins, processPlugin, processDecl,
      closePipe, closedAt, lookupA, updateA, setattrC, getattrC,
      installPipelines, stripClosed, entrance, merge_doc, List.foldlM,
      okBind, errBind, lastIsProp, isPropEntry]
  · simp [lookupA]

/-- C2: under one name declared by two different plugins, a `default`
followed by a later `extend` composes successfully, the `extend`'s
unwrapped value ends up installed on the composed class and the
was-defaulted flag is cleared; an `extend` followed by another `extend`
raises `PlumbingCollision`. -/
theorem c2 (nm : String) (v w : PyVal) (inh : List (String × PyVal)) :
    (∃ st, collectPlugins
        [⟨1, none, [(nm, mkDefault v)]⟩, ⟨2, none, [(nm, mkExtend w)]⟩]
        (initSt ⟨[], inh, none, none⟩
          [⟨1, none, [(nm, mkDefault v)]⟩, ⟨2, none, [(nm, mkExtend w)]⟩])
        = .ok st ∧
      lookupA st.cls.own nm = some (unwrap w) ∧ nm ∉ st.defaulted) ∧
    (∃ cls', compose ⟨[], inh, none, none⟩
        [⟨1, none, [(nm, mkDefault v)]⟩, ⟨2, none, [(nm, mkExtend w)]⟩]
        = .ok cls' ∧
      lookupA cls'.own nm = some (unwrap w)) ∧
    compose ⟨[], inh, none, none⟩
        [⟨1, none, [(nm, mkExtend v)]⟩, ⟨2, none, [(nm, mkExtend w)]⟩]
      = .error (.plumbingCollision nm) := by
  refine ⟨⟨⟨⟨[(nm, unwrap w)], inh, none, none⟩, [],
      [(nm, [PyVal.closedS])]⟩, ?_, ?_, ?_⟩, ?_, ?_⟩
  · simp [collectPlugins, initSt, processPlugin, processDecl, mkDefault,
      mkExtend, closePipe, closedAt, lookupA, updateA, setattrC, merge_doc,
      List.foldlM, okBind, errBind]
  · simp [lookupA]
  · simp
  · refine ⟨⟨[(nm, unwrap w)], inh, none, none⟩, ?_, ?_⟩
    · simp [compose, initSt, collectPlugins, processPlugin, processDecl,
        mkDefault, mkExtend, closePipe, closedAt, lookupA, updateA, setattrC,
        getattrC, installPipelines, stripClosed, entrance, merge_doc,
        List.foldlM, okBind, errBind]
    · simp [lookupA]
  · simp [compose, initSt, collectPlugins, processPlugin, processDecl,
      mkExtend, closePipe, closedAt, lookupA, updateA, setattrC, getattrC,
      installPipelines, stripClosed, entrance, merge_doc, List.foldlM,
      okBind, errBind]

/-- C3: whenever the collector succeeds and some collected pipeline
carries at least one plumbing entry while the composed class resolves no
attribute for that name (neither installed by `extend`/`default`, nor in
its own dict, nor inherited), the whole composition fails at build time
with the missing-endpoint error (the `AttributeError` from
`getattr(cls, name)`, which the specification names
`MissingEndpointError`); nothing is deferred to call time. -/
theorem c3 (plugins : List Plugin) (cls0 : Cls) (st : St) (nm : String)
    (pipe : List PyVal)
    (h1 : collectPlugins plugins (initSt cls0 plugins) = .ok st)
    (h2 : (nm, pipe) ∈ st.pipelines)
    (_h3 : pipe.any isPlumbEntry = true)
    (h4 : getattrC st.cls nm = none) :
    ∃ m, compose cls0 plugins = .error (.missingEndpoint m) := by
  have hInv := collectPlugins_inv (initSt_inv cls0 plugins) h1
  obtain ⟨m, hm⟩ := installPipelines_missing st.pipelines st.cls nm pipe
    hInv.1 (fun p hp => hInv.2 p hp) h2 h4
  exact ⟨m, by simp only [compose, h1]; exact hm⟩

/-- Witness for C3 at a concrete input: one plugin declaring a single
plumbing method `m` over an empty class with nothing inherited. -/
theorem c3_witness :
    ∃ m, compose clsEmpty [pluginMethW] = .error (.missingEndpoint m) :=
  c3 [pluginMethW] clsEmpty stMethW "m" [.boundMeth 1 0]
    (by decide) (by decide) (by decide) (by decide)

/-- C4: a successfully collected pipeline never holds both a method entry
and a property entry (first conjunct); declaring a plumbing method for a
name whose pipeline ends in a property entry, or a plumbing property for
a name whose pipeline ends in a method entry, raises `PlumbingCollision`
(second and third conjuncts, covering both orders of declaration). -/
theorem c4 :
    (∀ (cls0 : Cls) (plugins : List Plugin) (st : St),
      collectPlugins plugins (initSt cls0 plugins) = .ok st →
      ∀ p ∈ st.pipelines,
        ¬((∃ x ∈ p.2, isMethodEntry x = true) ∧
          (∃ x ∈ p.2, isPropEntry x = true))) ∧
    (∀ (plugin : Plugin) (st : St) (nm : String) (pipe : List PyVal)
        (g s d : Option Nat) (f : Nat),
      lookupA st.pipelines nm = some pipe →
      pipe.getLast? = some (.plumbP g s d) →
      processDecl plugin st nm (.plumbM f) = .error (.plumbingCollision nm)) ∧
    (∀ (plugin : Plugin) (st : St) (nm : String) (pipe : List PyVal)
        (p0 f0 : Nat) (g s d : Option Nat),
      lookupA st.pipelines nm = some pipe →
      pipe.getLast? = some (.boundMeth p0 f0) →
      processDecl plugin st nm (.plumbP g s d)
        = .error (.plumbingCollision nm)) := by
  refine ⟨?_, ?_, ?_⟩
  · intro cls0 plugins st h p hp hcon
    obtain ⟨⟨x, hx, hmx⟩, ⟨y, hy, hpy⟩⟩ := hcon
    have hInv := collectPlugins_inv (initSt_inv cls0 plugins) h
    obtain ⟨core, hsplit, hcore⟩ := hInv.2 p hp
    have hxc : x ∈ core := by
      rcases hsplit with hs1 | hs1
      · exact hs1 ▸ hx
      · rw [hs1] at hx
        rcases List.mem_append.mp hx with h2 | h2
        · exact h2
        · have h3 : x = PyVal.closedS := List.mem_singleton.mp h2
          rw [h3] at hmx
          simp [isMethodEntry] at hmx
    have hyc : y ∈ core := by
      rcases hsplit with hs1 | hs1
      · exact hs1 ▸ hy
      · rw [hs1] at hy
        rcases List.mem_append.mp hy with h2 | h2
        · exact h2
        · have h3 : y = PyVal.closedS := List.mem_singleton.mp h2
          rw [h3] at hpy
          simp [isPropEntry] at hpy
    rcases hcore with hall | hall
    · have h4 := List.all_eq_true.mp hall y hyc
      cases y <;> simp_all [isMethodEntry, isPropEntry]
    · have h4 := List.all_eq_true.mp hall x hxc
      cases x <;> simp_all [isMethodEntry, isPropEntry]
  · intro plugin st nm pipe g s d f hlook hlast
    simp [processDecl, closedAt, hlook, hlast, lastIsProp, isPropEntry]
  · intro plugin st nm pipe p0 f0 g s d hlook hlast
    simp [processDecl, closedAt, hlook, hlast, lastNonProp, isPropEntry]

/-- C5 exhibit: the compiled property accessors built on lines 131-137
call the layer's raw getter, setter and deleter with only
`(next_accessor, instance)` respectively `(next_accessor, instance,
value)` — the declaring plugin is never passed — whereas a compiled
method layer does receive its plugin first through classmethod binding;
consequently an accessor written with the signature documented on lines
85-88 (`plb, _next, self[, val]`) cannot be bound by these calls. -/
theorem c5_code_behavior :
    (CallArg.ownerPlugin ∉ get_entrance_args ∧
     CallArg.ownerPlugin ∉ set_entrance_args ∧
     CallArg.ownerPlugin ∉ del_entrance_args) ∧
    (get_entrance_args.head? = some CallArg.nextHandler ∧
     method_entrance_args.head? = some CallArg.ownerPlugin) ∧
    (pyCallBindsOk documented_getter_params get_entrance_args.length
        = false ∧
     pyCallBindsOk documented_setter_params set_entrance_args.length
        = false ∧
     pyCallBindsOk documented_deleter_params del_entrance_args.length
        = false) := by
  decide

/-- C6 counterexample: with layer docs `docA`, `docB` and endpoint doc
`docE`, the compiled chain's documentation is `docE`, `docB`, `docA`
joined by the separator — the innermost text first — and not the
outermost-first concatenation the claim states. -/
theorem c6_counterexample :
    (compileM [aLayer, bLayer] epLayer).2
        = some ("docE" ++ lineSep ++ "docB" ++ lineSep ++ "docA") ∧
      some ("docE" ++ lineSep ++ "docB" ++ lineSep ++ "docA")
        ≠ some ("docA" ++ lineSep ++ "docB" ++ lineSep ++ "docE") := by
  constructor
  · decide
  · decide

/-- C6 amended: the documentation attached to a compiled method chain is
the concatenation of the non-absent layer docs in innermost-to-outermost
order (the endpoint's text first, the first plugin's text last), joined
with a single line separator; dispatch is independent of every doc. -/
theorem c6_amended {I O : Type} (pipe : List (MLayer I O)) (ep : MEnd I O) :
    (compileM pipe ep).2
        = joinDocs (((pipe.map Prod.snd ++ [ep.2]).reverse).filterMap id) ∧
    (compileM pipe ep).1 = methodChain (pipe.map Prod.fst) ep.1 := by
  constructor
  · rw [compileM_doc, merge_doc_eq_joinDocs]
  · exact compileM_fst pipe ep

/-- C7 counterexample: a plain attribute `foo` on a second plugin collides
with the pipeline closed by an earlier plugin's `default` for `foo`, so a
plain attribute can cause a `PlumbingCollision`, contrary to the claim. -/
theorem c7_counterexample :
    compose clsEmpty
      [⟨1, none, [("foo", mkDefault (.obj 0))]⟩, ⟨2, none, [("foo", .obj 1)]⟩]
      = .error (.plumbingCollision "foo") := by
  decide

/-- C7 amended: a plain (untagged) plugin attribute never appends to any
pipeline and leaves the collector state untouched as long as the name's
pipeline is not closed; but when an earlier plugin closed that name's
pipeline with `default` or `extend`, the plain attribute raises
`PlumbingCollision` (lines 203-204). -/
theorem c7_amended :
    (∀ (plugin : Plugin) (st : St) (nm : String) (v : PyVal),
      isPlainAttr v = true → closedAt st nm = false →
      processDecl plugin st nm v = .ok st) ∧
    (∀ (plugin : Plugin) (st : St) (nm : String) (v : PyVal),
      isPlainAttr v = true → closedAt st nm = true →
      processDecl plugin st nm v = .error (.plumbingCollision nm)) := by
  constructor
  · intro plugin st nm v h1 h2
    cases v <;> simp_all [processDecl, isPlainAttr]
  · intro plugin st nm v h1 h2
    cases v <;> simp_all [processDecl, isPlainAttr]

/-- C8: `plumb` turns a plain function into a `plumbmethod` marker and a
plain property into a `plumbproperty` marker over the same accessor
triple, and fails with the type-constraint error (`TypeError`, which the
specification names `TypeConstraintError`) on any value that is neither
exactly a function nor exactly a property. -/
theorem c8 :
    (∀ t, plumb (.func t) = .ok (.plumbM t)) ∧
    (∀ g s d, plumb (.prop g s d) = .ok (.plumbP g s d)) ∧
    (∀ v, isFunctionType v = false → isPropertyType v = false →
      plumb v = .error .typeConstraint) := by
  refine ⟨fun t => rfl, fun g s d => rfl, fun v h1 h2 => ?_⟩
  cases v
  all_goals try rfl
  · simp [isFunctionType] at h1
  · simp [isPropertyType] at h2

/-- C9: marker construction unwraps recursively to the innermost raw
value: wrapping twice with `default` equals wrapping once (as whole
marker values, hence with equal stored attributes), a single `default` or
`extend` wrap never changes the unwrapped value, and any nesting depth of
`default` collapses to one wrap. -/
theorem c9 (x : PyVal) :
    mkDefault (mkDefault x) = mkDefault x ∧
    unwrap (mkDefault x) = unwrap x ∧
    unwrap (mkExtend x) = unwrap x ∧
    ∀ n : Nat, mkDefault^[n + 1] x = mkDefault x := by
  refine ⟨mkDefault_mkDefault x, ?_, ?_, fun n => mkDefault_iterate n x⟩
  · show unwrap (unwrap x) = unwrap x
    exact unwrap_unwrap x
  · show unwrap (unwrap x) = unwrap x
    exact unwrap_unwrap x

/-- C10: when the class being constructed carries no `__pipeline__` entry
in its own dict, `Plumber.__init__` performs no composition step: the
class comes back exactly as ordinary type construction produced it, with
no attribute added, replaced or removed. -/
theorem c10 (own inherited : List (String × PyVal)) (doc : Option String) :
    plumberInit ⟨own, inherited, none, doc⟩
      = .ok ⟨own, inherited, none, doc⟩ := rfl

end Plumber
